import Mathlib

/-!
Shallow embedding of the goapigen code generator (Go) in Lean 4.

The Go sources are embedded as executable Lean definitions:
* Go maps are modelled as association lists (iteration order = list order);
  map indexing that would return the zero value on a missing key is modelled
  with `Option`.
* Go pointers that may be nil (`*SchemaRef`, `SchemaRef.Value`, ...) are
  modelled with nested `Option`s, so a check `ref != nil && ref.Value != nil`
  becomes a match on `some (some v)`.
* Go strings are Lean `String`s; the Unicode-aware Go helpers
  (`strings.Title`, `unicode.IsLetter`, ...) are modelled at ASCII precision,
  which is the alphabet exercised by the generator.
* Machine integers (status codes, lengths) are `Nat`.
-/

namespace GoApiGen

/-! ### Go string helpers (package `strings` / `unicode`, ASCII model) -/

/-- `unicode.IsLetter` restricted to ASCII. -/
def goIsLetter (c : Char) : Bool := c.isAlpha

/-- `unicode.IsDigit` restricted to ASCII. -/
def goIsDigit (c : Char) : Bool := c.isDigit

/-- `unicode.IsUpper` restricted to ASCII. -/
def goIsUpper (c : Char) : Bool := c.isUpper

/-- `strings.ToLower` (ASCII). -/
def goToLower (s : String) : String := String.mk (s.data.map Char.toLower)

/-- The `isSeparator` predicate used by `strings.Title`: on ASCII, everything
except letters, digits and underscore separates words. -/
def goIsSeparator (c : Char) : Bool := !(c.isAlphanum || c == '_')

/-- Character stream of `strings.Title`: a letter that follows a separator
(or starts the string, `prev = ' '`) is upper-cased. -/
def goTitleAux : Char → List Char → List Char
  | _, [] => []
  | prev, c :: cs =>
    (if goIsSeparator prev then c.toUpper else c) :: goTitleAux c cs

/-- `strings.Title` (ASCII model). -/
def goTitle (s : String) : String := String.mk (goTitleAux ' ' s.data)

/-- `strings.TrimSpace` (ASCII whitespace). -/
def goTrimSpace (s : String) : String :=
  String.mk ((((s.data.dropWhile Char.isWhitespace).reverse).dropWhile
    Char.isWhitespace).reverse)

/-- `strings.FieldsFunc`: maximal runs of characters on which `f` is false. -/
def goFieldsFunc (f : Char → Bool) (s : String) : List String :=
  ((s.data.splitOnP f).filter (fun l => !l.isEmpty)).map String.mk

/-- `strings.ContainsAny(s, "_-")`. -/
def containsUnderscoreOrDash (s : String) : Bool :=
  s.data.any (fun c => c == '_' || c == '-')

/-- generator.ToCamelCase (utils.go): trim, split on non-alphanumerics,
lower-case the head part, `strings.Title(strings.ToLower(part))` on the rest,
join. -/
def ToCamelCase (s : String) : String :=
  let t := goTrimSpace s
  if t = "" then t
  else
    let parts := goFieldsFunc (fun r => !(goIsLetter r || goIsDigit r)) t
    match parts with
    | [] => ""
    | p :: ps =>
      String.join (goToLower p :: ps.map (fun q => goTitle (goToLower q)))

/-- generator.ToPascalCase (utils.go): camel-case then `strings.Title`. -/
def ToPascalCase (s : String) : String :=
  let c := ToCamelCase s
  if c = "" then c else goTitle c

/-- Inner loop of generator.SplitWords for the camelCase branch: split
before every upper-case character after position 0. -/
def splitCamelAux (cur : List Char) : List Char → List (List Char)
  | [] => [cur.reverse]
  | c :: cs =>
    if goIsUpper c then cur.reverse :: splitCamelAux [c] cs
    else splitCamelAux (c :: cur) cs

/-- generator.SplitWords (utils.go). -/
def SplitWords (s : String) : List String :=
  if containsUnderscoreOrDash s then
    goFieldsFunc (fun r => r == '_' || r == '-') s
  else
    match s.data with
    | [] => []
    | c :: cs => (splitCamelAux [c] cs).map String.mk

/-- generator.ToGoFieldName (utils.go): `id` maps to `ID`, otherwise every
word produced by SplitWords is passed through `strings.Title` and joined. -/
def ToGoFieldName (name : String) : String :=
  if name = "id" then "ID"
  else String.join ((SplitWords name).map goTitle)

/-- generator.Contains (utils.go): string-slice membership. -/
def Contains (slice : List String) (item : String) : Bool :=
  slice.any (fun s => s == item)

/-! ### The OpenAPI schema model (the subset of `openapi3.Schema` the
generator reads).  A `*openapi3.SchemaRef` together with its `Value` field is
modelled as `Option (Option Schema)`: `none` is a nil ref pointer,
`some none` a ref whose `Value` is nil, `some (some s)` a resolved schema. -/

inductive Schema : Type where
  | mk (type format : String)
       (items addProps : Option (Option Schema))
       (properties : List (String × Option (Option Schema)))
       (required : List String)
       (description : String)
       (minLength : Nat) (maxLength : Option Nat)
       (pattern : String) (enum : List String)
       (min max : Option String)

namespace Schema

def type : Schema → String | .mk t _ _ _ _ _ _ _ _ _ _ _ _ => t
def format : Schema → String | .mk _ f _ _ _ _ _ _ _ _ _ _ _ => f
def items : Schema → Option (Option Schema) | .mk _ _ i _ _ _ _ _ _ _ _ _ _ => i
def addProps : Schema → Option (Option Schema) | .mk _ _ _ a _ _ _ _ _ _ _ _ _ => a
def properties : Schema → List (String × Option (Option Schema))
  | .mk _ _ _ _ p _ _ _ _ _ _ _ _ => p
def required : Schema → List String | .mk _ _ _ _ _ r _ _ _ _ _ _ _ => r
def description : Schema → String | .mk _ _ _ _ _ _ d _ _ _ _ _ _ => d
def minLength : Schema → Nat | .mk _ _ _ _ _ _ _ m _ _ _ _ _ => m
def maxLength : Schema → Option Nat | .mk _ _ _ _ _ _ _ _ m _ _ _ _ => m
def pattern : Schema → String | .mk _ _ _ _ _ _ _ _ _ p _ _ _ => p
def enum : Schema → List String | .mk _ _ _ _ _ _ _ _ _ _ e _ _ => e
def min : Schema → Option String | .mk _ _ _ _ _ _ _ _ _ _ _ m _ => m
def max : Schema → Option String | .mk _ _ _ _ _ _ _ _ _ _ _ _ m => m

end Schema

/-- Size of a schema found inside an `Option (Option Schema)` field. -/
theorem Schema.sizeOf_items_lt {s : Schema} {it : Schema}
    (h : s.items = some (some it)) : sizeOf it < sizeOf s := by
  cases s with
  | mk t f i a p r d mnl mxl pat e mn mx =>
    simp only [Schema.items] at h
    subst h
    simp only [Schema.mk.sizeOf_spec, sizeOf_default]
    have : sizeOf (some (some it)) = 2 + sizeOf it := by
      simp
      omega
    omega

theorem Schema.sizeOf_addProps_lt {s : Schema} {it : Schema}
    (h : s.addProps = some (some it)) : sizeOf it < sizeOf s := by
  cases s with
  | mk t f i a p r d mnl mxl pat e mn mx =>
    simp only [Schema.addProps] at h
    subst h
    simp only [Schema.mk.sizeOf_spec, sizeOf_default]
    have : sizeOf (some (some it)) = 2 + sizeOf it := by
      simp
      omega
    omega

/-- generator.MapSchemaToGoType (utils.go, lines 124-182): the schema-node
type mapper, translated switch by switch. -/
def MapSchemaToGoType (s : Schema) : Except String String :=
  if s.type = "string" then
    if s.format = "date-time" then .ok "time.Time"
    else if s.format = "binary" then .ok "[]byte"
    else if s.format = "uuid" then .ok "string"
    else .ok "string"
  else if s.type = "number" then
    if s.format = "float" then .ok "float32" else .ok "float64"
  else if s.type = "integer" then
    if s.format = "int32" then .ok "int32"
    else if s.format = "int64" then .ok "int64"
    else .ok "int"
  else if s.type = "boolean" then .ok "bool"
  else if s.type = "array" then
    match h : s.items with
    | some (some it) =>
      match MapSchemaToGoType it with
      | .error e => .error e
      | .ok t => .ok ("[]" ++ t)
    | some none => .ok "[]interface{}"
    | none => .ok "[]interface{}"
  else if s.type = "object" then
    match h : s.addProps with
    | some (some v) =>
      match MapSchemaToGoType v with
      | .error e => .error e
      | .ok t => .ok ("map[string]" ++ t)
    | some none => .ok "map[string]interface{}"
    | none => .ok "map[string]interface{}"
  else .ok "interface{}"
termination_by sizeOf s
decreasing_by
  · exact Schema.sizeOf_items_lt h
  · exact Schema.sizeOf_addProps_lt h

/-- Every schema node has positive size. -/
theorem Schema.sizeOf_pos (s : Schema) : 0 < sizeOf s := by
  cases s; simp only [Schema.mk.sizeOf_spec]; omega

/-- The type mapper is total: it returns `.ok` on every schema node. -/
theorem mapSchemaToGoType_isOk :
    ∀ (n : Nat) (s : Schema), sizeOf s ≤ n → ∃ t, MapSchemaToGoType s = .ok t := by
  intro n
  induction n with
  | zero =>
    intro s hs
    exact absurd hs (by have := Schema.sizeOf_pos s; omega)
  | succ n ih =>
    intro s hs
    rw [MapSchemaToGoType]
    split_ifs
    all_goals try exact ⟨_, rfl⟩
    all_goals split
    all_goals try exact ⟨_, rfl⟩
    · rename_i it hit
      obtain ⟨t, ht⟩ := ih it (by have := Schema.sizeOf_items_lt hit; omega)
      rw [ht]
      exact ⟨_, rfl⟩
    · rename_i v hv
      obtain ⟨t, ht⟩ := ih v (by have := Schema.sizeOf_addProps_lt hv; omega)
      rw [ht]
      exact ⟨_, rfl⟩

/-- C1: `MapSchemaToGoType` is a total function that never returns an error
for any schema node and follows the fixed precedence: string/date-time maps to
`time.Time`, string/binary to `[]byte`, any other string (uuid included) to
`string`; number/float to `float32`, other numbers to `float64`;
integer/int32 and int64 to the sized types, other integers to `int`;
boolean to `bool`; arrays to a slice of the mapped item type, with missing
items yielding `[]interface\x7b\x7d`; objects with an additionalProperties
schema to a string-keyed map of the mapped value type, other objects to
`map[string]interface\x7b\x7d`; and any unmatched kind to the
`interface\x7b\x7d` fallback rather than an error. -/
theorem claim_C1_mapSchemaToGoType (s : Schema) :
    (∃ t, MapSchemaToGoType s = .ok t)
    ∧ (s.type = "string" → MapSchemaToGoType s =
        .ok (if s.format = "date-time" then "time.Time"
             else if s.format = "binary" then "[]byte" else "string"))
    ∧ (s.type = "number" → MapSchemaToGoType s =
        .ok (if s.format = "float" then "float32" else "float64"))
    ∧ (s.type = "integer" → MapSchemaToGoType s =
        .ok (if s.format = "int32" then "int32"
             else if s.format = "int64" then "int64" else "int"))
    ∧ (s.type = "boolean" → MapSchemaToGoType s = .ok "bool")
    ∧ (∀ it t, s.type = "array" → s.items = some (some it) →
        MapSchemaToGoType it = .ok t → MapSchemaToGoType s = .ok ("[]" ++ t))
    ∧ (s.type = "array" → (s.items = none ∨ s.items = some none) →
        MapSchemaToGoType s = .ok "[]interface{}")
    ∧ (∀ v t, s.type = "object" → s.addProps = some (some v) →
        MapSchemaToGoType v = .ok t → MapSchemaToGoType s = .ok ("map[string]" ++ t))
    ∧ (s.type = "object" → (s.addProps = none ∨ s.addProps = some none) →
        MapSchemaToGoType s = .ok "map[string]interface{}")
    ∧ (s.type ∉ (["string", "number", "integer", "boolean", "array", "object"] :
          List String) → MapSchemaToGoType s = .ok "interface{}") := by
  refine ⟨mapSchemaToGoType_isOk (sizeOf s) s le_rfl, ?_, ?_, ?_, ?_, ?_, ?_, ?_, ?_, ?_⟩
  · intro h; rw [MapSchemaToGoType]; simp [h]; split_ifs <;> rfl
  · intro h; rw [MapSchemaToGoType]; simp [h]; split_ifs <;> rfl
  · intro h; rw [MapSchemaToGoType]; simp [h]; split_ifs <;> rfl
  · intro h; rw [MapSchemaToGoType]; simp [h]
  · intro it t h hit hmap
    rw [MapSchemaToGoType]
    simp [h]
    split
    · rename_i it' hit'
      rw [hit] at hit'
      cases hit'
      rw [hmap]
    · rename_i hit'
      rw [hit] at hit'
      cases hit'
    · rename_i hit'
      rw [hit] at hit'
      cases hit'
  · intro h hitems
    rw [MapSchemaToGoType]
    simp [h]
    split
    · rename_i it' hit'
      rcases hitems with h' | h' <;> rw [h'] at hit' <;> cases hit'
    · rfl
    · rfl
  · intro v t h hv hmap
    rw [MapSchemaToGoType]
    simp [h]
    split
    · rename_i v' hv'
      rw [hv] at hv'
      cases hv'
      rw [hmap]
    · rename_i hv'
      rw [hv] at hv'
      cases hv'
    · rename_i hv'
      rw [hv] at hv'
      cases hv'
  · intro h hap
    rw [MapSchemaToGoType]
    simp [h]
    split
    · rename_i v' hv'
      rcases hap with h' | h' <;> rw [h'] at hv' <;> cases hv'
    · rfl
    · rfl
  · intro h
    simp only [List.mem_cons, List.mem_singleton, not_or] at h
    obtain ⟨h1, h2, h3, h4, h5, h6, -⟩ := h
    rw [MapSchemaToGoType]
    simp [h1, h2, h3, h4, h5, h6]

/-- An example schema node: `\x7btype: string, format: date-time\x7d`. -/
def exSchemaDateTime : Schema :=
  .mk "string" "date-time" none none [] [] "" 0 none "" [] none none

/-- Witness for C1 at a concrete schema node. -/
theorem claim_C1_witness :
    MapSchemaToGoType exSchemaDateTime = .ok "time.Time" := by
  have h := (claim_C1_mapSchemaToGoType exSchemaDateTime).2.1 rfl
  simpa using h

/-! ### Field tag generation (types.go, generateFieldTags, lines 286-351).
`schema.Min`/`schema.Max` are `*float64` in Go and only ever rendered with
`%v`; they are modelled as already-rendered optional strings.  The `enum`
values (`[]interface\x7b\x7d`, rendered with `%v`) are likewise modelled as
strings. -/

/-- String validations block of generateFieldTags (types.go 303-324). -/
def stringValTags (s : Schema) : List String :=
  if s.type = "string" then
    (if s.minLength > 0 then ["min=" ++ toString s.minLength] else [])
    ++ (match s.maxLength with
        | some m => ["max=" ++ toString m]
        | none => [])
    ++ (if s.pattern ≠ "" then ["regexp=" ++ s.pattern] else [])
    ++ (if s.format ≠ "" then ["format=" ++ s.format] else [])
    ++ (if s.enum ≠ [] then ["enum=" ++ String.intercalate " " s.enum] else [])
  else []

/-- Number validations block of generateFieldTags (types.go 326-334). -/
def numberValTags (s : Schema) : List String :=
  if s.type = "number" ∨ s.type = "integer" then
    (match s.min with
     | some m => ["min=" ++ m]
     | none => [])
    ++ (match s.max with
        | some m => ["max=" ++ m]
        | none => [])
  else []

/-- The `valTags` slice of generateFieldTags: the required marker followed by
the string and number validation tags, in source order. -/
def generateValTags (name : String) (s : Schema) (requiredFields : List String) :
    List String :=
  (if Contains requiredFields name then ["required"] else [])
  ++ stringValTags s ++ numberValTags s

/-- The `tags` map of generateFieldTags as an association list in insertion
order: json tag, bson tag, and the validate tag when `valTags` is nonempty. -/
def generateFieldTagPairs (name : String) (s : Schema)
    (requiredFields : List String) : List (String × String) :=
  let valTags := generateValTags name s requiredFields
  [("json", name), ("bson", name)]
  ++ (if valTags ≠ [] then [("validate", String.intercalate "," valTags)] else [])

/-- generateFieldTags (types.go): render each tag as `key:"value"`, sort the
rendered strings, join with spaces. -/
def generateFieldTags (name : String) (s : Schema)
    (requiredFields : List String) : String :=
  let tagStrs := (generateFieldTagPairs name s requiredFields).map
    (fun p => p.1 ++ ":\"" ++ p.2 ++ "\"")
  String.intercalate " " (tagStrs.insertionSort (· ≤ ·))

/-- A string starting with a prefix that contains `=` is never the literal
`required`. -/
theorem ne_required_of_eq_mem (pre x : String) (h : '=' ∈ pre.data) :
    pre ++ x ≠ "required" := by
  intro he
  have h2 := congrArg String.data he
  rw [String.data_append] at h2
  have h3 : '=' ∈ "required".data := by
    rw [← h2]
    exact List.mem_append_left _ h
  revert h3
  decide

/-- Membership in a conditional singleton list forces equality. -/
theorem mem_optSingle {c : Prop} [Decidable c] {t e : String}
    (h : t ∈ (if c then [e] else [])) : t = e := by
  split_ifs at h <;> simp_all

/-- An `=` found in the first component of an append. -/
theorem eq_mem_append (pre x : String) (h : '=' ∈ pre.data) :
    '=' ∈ (pre ++ x).data := by
  rw [String.data_append]
  exact List.mem_append_left _ h

/-- Every string-validation tag embeds an `=` sign. -/
theorem stringValTags_has_eq (s : Schema) :
    ∀ t ∈ stringValTags s, '=' ∈ t.data := by
  intro t ht
  unfold stringValTags at ht
  by_cases h : s.type = "string"
  · rw [if_pos h] at ht
    rcases List.mem_append.1 ht with h1 | h5
    swap
    · rw [mem_optSingle h5]
      exact eq_mem_append "enum=" _ (by decide)
    rcases List.mem_append.1 h1 with h2 | h4
    swap
    · rw [mem_optSingle h4]
      exact eq_mem_append "format=" _ (by decide)
    rcases List.mem_append.1 h2 with h3 | hpat
    swap
    · rw [mem_optSingle hpat]
      exact eq_mem_append "regexp=" _ (by decide)
    rcases List.mem_append.1 h3 with hmin | hmax2
    · rw [mem_optSingle hmin]
      exact eq_mem_append "min=" _ (by decide)
    · cases hmax : s.maxLength with
      | none => rw [hmax] at hmax2; simp at hmax2
      | some m =>
        rw [hmax] at hmax2
        simp only [List.mem_singleton] at hmax2
        rw [hmax2]
        exact eq_mem_append "max=" _ (by decide)
  · rw [if_neg h] at ht
    simp at ht

/-- Every number-validation tag embeds an `=` sign. -/
theorem numberValTags_has_eq (s : Schema) :
    ∀ t ∈ numberValTags s, '=' ∈ t.data := by
  intro t ht
  unfold numberValTags at ht
  by_cases h : s.type = "number" ∨ s.type = "integer"
  · rw [if_pos h] at ht
    rcases List.mem_append.1 ht with h1 | h1
    · cases hmin : s.min with
      | none => rw [hmin] at h1; simp at h1
      | some m =>
        rw [hmin] at h1
        simp only [List.mem_singleton] at h1
        rw [h1]
        exact eq_mem_append "min=" _ (by decide)
    · cases hmax : s.max with
      | none => rw [hmax] at h1; simp at h1
      | some m =>
        rw [hmax] at h1
        simp only [List.mem_singleton] at h1
        rw [h1]
        exact eq_mem_append "max=" _ (by decide)
  · rw [if_neg h] at ht
    simp at ht

/-- The literal `required` never appears among the validation tags. -/
theorem required_notMem_stringValTags (s : Schema) :
    "required" ∉ stringValTags s := by
  intro hmem
  have := stringValTags_has_eq s _ hmem
  revert this
  decide

theorem required_notMem_numberValTags (s : Schema) :
    "required" ∉ numberValTags s := by
  intro hmem
  have := numberValTags_has_eq s _ hmem
  revert this
  decide

/-- generator.Contains agrees with list membership. -/
theorem contains_iff_mem (slice : List String) (item : String) :
    Contains slice item = true ↔ item ∈ slice := by
  unfold Contains
  rw [List.any_eq_true]
  constructor
  · rintro ⟨x, hx, he⟩
    rw [← eq_of_beq he]
    exact hx
  · intro h
    exact ⟨item, h, by simp⟩

/-- C6: for every property, the wire (json) tag and the storage (bson) tag in
the generated tag map are both exactly the original schema property name,
verbatim, for all property names. -/
theorem claim_C6_roundTripTags (name : String) (s : Schema)
    (requiredFields : List String) :
    List.lookup "json" (generateFieldTagPairs name s requiredFields) = some name
    ∧ List.lookup "bson" (generateFieldTagPairs name s requiredFields) = some name := by
  unfold generateFieldTagPairs
  constructor <;> simp [List.lookup]

/-- C7: the generated validation-rule list carries the `required` marker if
and only if the property name appears in the schema's required list. -/
theorem claim_C7_requiredMarker (name : String) (s : Schema)
    (requiredFields : List String) :
    "required" ∈ generateValTags name s requiredFields ↔ name ∈ requiredFields := by
  unfold generateValTags
  constructor
  · intro h
    rcases List.mem_append.1 h with h1 | h1
    · rcases List.mem_append.1 h1 with h2 | h2
      · by_cases hc : Contains requiredFields name
        · exact (contains_iff_mem _ _).1 hc
        · rw [if_neg hc] at h2
          simp at h2
      · exact absurd h2 (required_notMem_stringValTags s)
    · exact absurd h1 (required_notMem_numberValTags s)
  · intro h
    apply List.mem_append.2
    left
    apply List.mem_append.2
    left
    rw [if_pos ((contains_iff_mem _ _).2 h)]
    simp

/-- Witness for C6 at a concrete property. -/
theorem claim_C6_witness :
    List.lookup "json" (generateFieldTagPairs "created_at" exSchemaDateTime
      ["created_at"]) = some "created_at"
    ∧ List.lookup "bson" (generateFieldTagPairs "created_at" exSchemaDateTime
      ["created_at"]) = some "created_at" :=
  claim_C6_roundTripTags "created_at" exSchemaDateTime ["created_at"]

/-- Witness for C7 at a concrete property, both directions. -/
theorem claim_C7_witness :
    "required" ∈ generateValTags "name" exSchemaDateTime ["name"]
    ∧ "required" ∉ generateValTags "nick" exSchemaDateTime ["name"] :=
  ⟨(claim_C7_requiredMarker "name" exSchemaDateTime ["name"]).2 (by decide),
   fun h => by
    have := (claim_C7_requiredMarker "nick" exSchemaDateTime ["name"]).1 h
    simp at this⟩

/-! ### prepareOperationData (http.go) : content-type choice, request field
synthesis and success-status resolution. -/

/-- The content map of a request or response body: media type name to the
`MediaType.Schema` reference (two nullable levels). -/
abbrev MediaTypeMap := List (String × Option (Option Schema))

/-- One iteration of the content-type selection loop (http.go 330-337 and
396-403): a media type with a non-nil schema is taken when it is
`application/json` or when nothing has been selected yet. -/
def pickStep (acc : String × Option Schema)
    (p : String × Option (Option Schema)) : String × Option Schema :=
  match p.2 with
  | some (some s) =>
    if p.1 = "application/json" ∨ acc.1 = "" then (p.1, some s) else acc
  | _ => acc

/-- The content-type selection loop: returns the chosen content type and
schema (initially empty / nil). -/
def pickContentSchema (content : MediaTypeMap) : String × Option Schema :=
  content.foldl pickStep ("", none)

/-- `fmt.Sscanf(statusCode, "%d", ...)` on a status-code key: the leading
digit run, or 0 when there is none. -/
def parseStatusCode (s : String) : Nat :=
  ((String.mk (s.data.takeWhile Char.isDigit)).toNat?).getD 0

/-- The 2xx-scan of the response map (http.go 379-388, status part): the
first response key whose first byte is `2` determines the declared success
status (0 parses defaulting to 200 inside the loop); no such key leaves 0. -/
def scanSuccessStatus {α : Type} : List (String × α) → Nat
  | [] => 0
  | (code, _) :: rest =>
    if code.data.head? = some '2' then
      if parseStatusCode code = 0 then 200 else parseStatusCode code
    else scanSuccessStatus rest

/-- The `successStatus` value after the response loop: 0 when the operation
has a nil response map or declares no 2xx response. -/
def declaredSuccessStatus {α : Type} (responses : Option (List (String × α))) : Nat :=
  match responses with
  | none => 0
  | some rs => scanSuccessStatus rs

/-- Success-status resolution (http.go 375-450): the scanned 2xx status,
with the method-based default when none was found. -/
def resolveSuccessStatus {α : Type} (httpMethod : String)
    (responses : Option (List (String × α))) : Nat :=
  if declaredSuccessStatus responses = 0 then
    if httpMethod = "POST" then 201
    else if httpMethod = "DELETE" then 204
    else 200
  else declaredSuccessStatus responses

/-- The 2xx-scan yields 0 on a response map with no 2xx key. -/
theorem scanSuccessStatus_eq_zero {α : Type} :
    ∀ rs : List (String × α), (∀ p ∈ rs, (p.1).data.head? ≠ some '2') →
      scanSuccessStatus rs = 0
  | [], _ => rfl
  | (code, r) :: rest, h => by
    unfold scanSuccessStatus
    rw [if_neg (h (code, r) (by simp))]
    exact scanSuccessStatus_eq_zero rest (fun p hp => h p (List.mem_cons_of_mem _ hp))

/-- The 2xx-scan never yields a status strictly between 0 and 1. -/
theorem scanSuccessStatus_pos_or_zero {α : Type} :
    ∀ rs : List (String × α), scanSuccessStatus rs = 0 ∨ 0 < scanSuccessStatus rs
  | [] => Or.inl rfl
  | (code, r) :: rest => by
    unfold scanSuccessStatus
    split_ifs with h1 h2
    · right
      omega
    · right
      omega
    · exact scanSuccessStatus_pos_or_zero rest

/-- C3: for an operation declaring no 2xx response, the resolved success
status is determined solely by the HTTP method (POST yields 201, DELETE 204,
anything else 200), and the resolution always produces a concrete positive
status even when the document omits one. -/
theorem claim_C3_statusDefaulting {α : Type} (httpMethod : String)
    (responses : Option (List (String × α)))
    (h2xx : ∀ p ∈ responses.getD [], (p.1).data.head? ≠ some '2') :
    resolveSuccessStatus httpMethod responses =
      (if httpMethod = "POST" then 201
       else if httpMethod = "DELETE" then 204 else 200)
    ∧ (∀ (rs : Option (List (String × α))), 0 < resolveSuccessStatus httpMethod rs) := by
  constructor
  · unfold resolveSuccessStatus declaredSuccessStatus
    cases responses with
    | none => simp
    | some rs =>
      simp only [Option.getD] at h2xx
      simp [scanSuccessStatus_eq_zero rs h2xx]
  · intro rs
    unfold resolveSuccessStatus declaredSuccessStatus
    cases rs with
    | none => split_ifs <;> omega
    | some l =>
      rcases scanSuccessStatus_pos_or_zero l with h | h <;> split_ifs <;> omega

/-- Witness for C3: a DELETE operation with only a 404 response resolves
to 204. -/
theorem claim_C3_witness :
    resolveSuccessStatus "DELETE" (some [("404", "notfound")]) = 204 := by
  have h := claim_C3_statusDefaulting "DELETE" (some [("404", "notfound")])
    (by rintro p hp; simp at hp; subst hp; decide)
  rw [h.1]
  rfl

/-- Once a nonempty content type is selected and no `application/json`
remains, the selection loop keeps its accumulator. -/
theorem pickFold_stable :
    ∀ (l : MediaTypeMap) (acc : String × Option Schema), acc.1 ≠ "" →
      (∀ p ∈ l, p.1 ≠ "application/json") → l.foldl pickStep acc = acc
  | [], _, _, _ => rfl
  | p :: rest, acc, h1, h2 => by
    rw [List.foldl_cons]
    have hstep : pickStep acc p = acc := by
      rcases p with ⟨ct, _ | (_ | v)⟩
      · rfl
      · rfl
      · unfold pickStep
        dsimp only
        rw [if_neg]
        push_neg
        exact ⟨h2 (ct, some (some v)) (by simp), h1⟩
    rw [hstep]
    exact pickFold_stable rest acc h1 (fun q hq => h2 q (List.mem_cons_of_mem _ hq))

/-- C9: the schema chosen for a request or response body is the one under
the `application/json` media type whenever that media type is declared with
a non-nil schema; when `application/json` is absent, the (nonempty-named)
first declared media type with a non-nil schema is chosen. -/
theorem claim_C9_mediaTypeChoice (content : MediaTypeMap) :
    ((content.map (fun p => p.1)).Nodup →
      ∀ s : Schema, ("application/json", some (some s)) ∈ content →
        pickContentSchema content = ("application/json", some s))
    ∧ ((∀ p ∈ content, p.1 ≠ "application/json") →
        ∀ ct0 v0 rest, content = (ct0, some (some v0)) :: rest → ct0 ≠ "" →
          pickContentSchema content = (ct0, some v0)) := by
  constructor
  · intro hnd s hmem
    obtain ⟨pre, post, rfl⟩ := List.append_of_mem hmem
    unfold pickContentSchema
    rw [List.foldl_append, List.foldl_cons]
    have hstep : pickStep (pre.foldl pickStep ("", none))
        ("application/json", some (some s)) = ("application/json", some s) := by
      unfold pickStep
      simp
    rw [hstep]
    apply pickFold_stable
    · exact (by decide : ("application/json" : String) ≠ "")
    · intro p hp hjson
      rw [List.map_append, List.map_cons] at hnd
      have hpost := (List.nodup_cons.1 (List.Nodup.of_append_right hnd)).1
      have hm : p.1 ∈ post.map (fun q => q.1) :=
        List.mem_map_of_mem (fun q => q.1) hp
      rw [hjson] at hm
      exact hpost hm
  · intro hnj ct0 v0 rest hceq hne
    subst hceq
    unfold pickContentSchema
    rw [List.foldl_cons]
    have hstep : pickStep ("", none) (ct0, some (some v0)) = (ct0, some v0) := by
      unfold pickStep
      simp
    rw [hstep]
    exact pickFold_stable rest (ct0, some v0) hne
      (fun p hp => hnj p (List.mem_cons_of_mem _ hp))

/-- A plain string schema, for concrete witnesses. -/
def exSchemaString : Schema :=
  .mk "string" "" none none [] [] "" 0 none "" [] none none

/-- Witness for C9: json preferred over an earlier media type, and the first
media type chosen when json is absent. -/
theorem claim_C9_witness :
    pickContentSchema [("text/plain", some (some exSchemaString)),
      ("application/json", some (some exSchemaDateTime))] =
      ("application/json", some exSchemaDateTime)
    ∧ pickContentSchema [("text/plain", some (some exSchemaString))] =
      ("text/plain", some exSchemaString) := by
  constructor
  · exact (claim_C9_mediaTypeChoice _).1 (by decide) exSchemaDateTime
      (List.Mem.tail _ (List.Mem.head _))
  · exact (claim_C9_mediaTypeChoice _).2
      (by rintro p hp; simp at hp; subst hp; decide)
      "text/plain" exSchemaString [] rfl (by decide)

/-! ### Request body synthesis (http.go 318-370).  `RequestField.typ` stands
for the Go struct field `Type` (a Lean keyword). -/

structure RequestField : Type where
  Name : String
  typ : String
  JsonTag : String

/-- The field order used by `sort.Slice` in prepareOperationData: compare
generated Go field names. -/
def fieldLe (a b : RequestField) : Prop := a.Name ≤ b.Name

instance : DecidableRel fieldLe :=
  fun a b => inferInstanceAs (Decidable (a.Name ≤ b.Name))

instance : IsTotal RequestField fieldLe := ⟨fun a b => le_total a.Name b.Name⟩

instance : IsTrans RequestField fieldLe :=
  ⟨fun _ _ _ h1 h2 => le_trans h1 h2⟩

/-- The per-property loop body of the request-field extraction (http.go
345-363): skip nil refs and values, skip the server-assigned properties on
POST, map the schema type (propagating errors), and emit the field. -/
def extractRequestFieldsCore (httpMethod : String) :
    List (String × Option (Option Schema)) → Except String (List RequestField)
  | [] => .ok []
  | p :: rest =>
    match p.2 with
    | some (some v) =>
      if httpMethod = "POST" ∧ (p.1 = "id" ∨ p.1 = "created_at" ∨ p.1 = "updated_at") then
        extractRequestFieldsCore httpMethod rest
      else
        match MapSchemaToGoType v with
        | .error e => .error ("failed to map request field " ++ p.1 ++ ": " ++ e)
        | .ok t =>
          match extractRequestFieldsCore httpMethod rest with
          | .error e => .error e
          | .ok fs => .ok (⟨ToGoFieldName p.1, t, p.1⟩ :: fs)
    | _ => extractRequestFieldsCore httpMethod rest

/-- Request-body handling of prepareOperationData: when the body resolves to
a schema, synthesize the `PascalCase(opID) ++ "Request"` type and the sorted
field list (`sort.Slice` is modelled by insertion sort on the same order). -/
def prepareRequestData (opID httpMethod : String)
    (requestBody : Option (Option MediaTypeMap)) :
    Except String (Bool × String × List RequestField) :=
  match requestBody with
  | some (some content) =>
    match (pickContentSchema content).2 with
    | some schema =>
      match extractRequestFieldsCore httpMethod schema.properties with
      | .error e => .error e
      | .ok fs =>
        .ok (true, ToPascalCase opID ++ "Request", fs.insertionSort fieldLe)
    | none => .ok (true, "", [])
  | _ => .ok (false, "", [])

/-- Functional form of the per-property loop body, for reasoning. -/
def toRequestField (m : String) (p : String × Option (Option Schema)) :
    Option RequestField :=
  match p.2 with
  | some (some v) =>
    if m = "POST" ∧ (p.1 = "id" ∨ p.1 = "created_at" ∨ p.1 = "updated_at") then
      none
    else
      match MapSchemaToGoType v with
      | .ok t => some ⟨ToGoFieldName p.1, t, p.1⟩
      | .error _ => none
  | _ => none

/-- Because the type mapper is total, field extraction never fails and is a
filterMap of the loop body. -/
theorem extractRequestFieldsCore_eq (m : String) :
    ∀ props, extractRequestFieldsCore m props =
      .ok (props.filterMap (toRequestField m))
  | [] => rfl
  | p :: rest => by
    have ih := extractRequestFieldsCore_eq m rest
    rcases p with ⟨q, _ | (_ | v)⟩
    · unfold extractRequestFieldsCore
      rw [List.filterMap_cons]
      exact ih
    · unfold extractRequestFieldsCore
      rw [List.filterMap_cons]
      exact ih
    · unfold extractRequestFieldsCore toRequestField
      dsimp only
      rw [List.filterMap_cons]
      dsimp only [toRequestField]
      split_ifs with hexcl
      · exact ih
      · obtain ⟨t, ht⟩ := mapSchemaToGoType_isOk (sizeOf v) v le_rfl
        rw [ht, ih]
        rfl

/-- Destructing a produced field. -/
theorem toRequestField_spec {m : String} {a : String × Option (Option Schema)}
    {f : RequestField} (h : toRequestField m a = some f) :
    (∃ v, a.2 = some (some v))
    ∧ ¬(m = "POST" ∧ (a.1 = "id" ∨ a.1 = "created_at" ∨ a.1 = "updated_at"))
    ∧ f.JsonTag = a.1 := by
  unfold toRequestField at h
  rcases a with ⟨q, _ | (_ | v)⟩ <;> dsimp only at h
  · cases h
  · cases h
  · split_ifs at h with hexcl
    rcases hmap : MapSchemaToGoType v with e | t <;> rw [hmap] at h
    · cases h
    · cases h
      exact ⟨⟨v, rfl⟩, hexcl, rfl⟩

/-- Building a field for a kept property. -/
theorem toRequestField_make {m q : String} {v : Schema} {t : String}
    (hnex : ¬(m = "POST" ∧ (q = "id" ∨ q = "created_at" ∨ q = "updated_at")))
    (hmap : MapSchemaToGoType v = .ok t) :
    toRequestField m (q, some (some v)) = some ⟨ToGoFieldName q, t, q⟩ := by
  unfold toRequestField
  dsimp only
  rw [if_neg hnex, hmap]

/-- C4: when an operation with a request body resolves to a schema, a
request type named `PascalCase(opID) ++ "Request"` is synthesized, the
synthesized fields are sorted by target identifier, and a body property
yields a field if and only if it has a non-nil schema and is not one of
`id`/`created_at`/`updated_at` excluded under POST (every other method keeps
those properties). -/
theorem claim_C4_requestSynthesis (opID httpMethod : String)
    (content : MediaTypeMap) (schema : Schema)
    (hpick : (pickContentSchema content).2 = some schema) :
    ∃ fs, prepareRequestData opID httpMethod (some (some content)) =
        .ok (true, ToPascalCase opID ++ "Request", fs)
      ∧ List.Pairwise fieldLe fs
      ∧ (∀ p : String, (∃ f ∈ fs, f.JsonTag = p) ↔
          ((∃ v, (p, some (some v)) ∈ schema.properties)
           ∧ ¬(httpMethod = "POST" ∧
                (p = "id" ∨ p = "created_at" ∨ p = "updated_at")))) := by
  refine ⟨(schema.properties.filterMap (toRequestField httpMethod)).insertionSort
    fieldLe, ?_, ?_, ?_⟩
  · unfold prepareRequestData
    simp only [hpick]
    rw [extractRequestFieldsCore_eq]
  · exact List.sorted_insertionSort fieldLe _
  · intro p
    constructor
    · rintro ⟨f, hf, rfl⟩
      rw [List.mem_insertionSort] at hf
      obtain ⟨a, ha, hfa⟩ := List.mem_filterMap.1 hf
      obtain ⟨⟨v, hv⟩, hnex, htag⟩ := toRequestField_spec hfa
      rw [htag]
      rcases a with ⟨q, w⟩
      dsimp only at hv htag ⊢
      subst hv
      exact ⟨⟨v, ha⟩, hnex⟩
    · rintro ⟨⟨v, hv⟩, hnex⟩
      obtain ⟨t, ht⟩ := mapSchemaToGoType_isOk (sizeOf v) v le_rfl
      refine ⟨⟨ToGoFieldName p, t, p⟩, ?_, rfl⟩
      rw [List.mem_insertionSort]
      exact List.mem_filterMap.2 ⟨(p, some (some v)), hv,
        toRequestField_make hnex ht⟩

/-- A user-like schema with id, name and created_at properties. -/
def exUserSchema : Schema :=
  .mk "object" "" none none
    [("id", some (some exSchemaString)),
     ("name", some (some exSchemaString)),
     ("created_at", some (some exSchemaDateTime))]
    [] "" 0 none "" [] none none

/-- Witness for C4: a POST body over `exUserSchema` yields
`CreateuserRequest` (the code's PascalCase of `createUser`) whose fields
keep `name` and drop `id` and `created_at`. -/
theorem claim_C4_witness :
    ToPascalCase "createUser" ++ "Request" = "CreateuserRequest"
    ∧ ∃ fs, prepareRequestData "createUser" "POST"
        (some (some [("application/json", some (some exUserSchema))])) =
        .ok (true, ToPascalCase "createUser" ++ "Request", fs)
      ∧ List.Pairwise fieldLe fs
      ∧ (∃ f ∈ fs, f.JsonTag = "name")
      ∧ ¬(∃ f ∈ fs, f.JsonTag = "id")
      ∧ ¬(∃ f ∈ fs, f.JsonTag = "created_at") := by
  obtain ⟨fs, heq, hsorted, hiff⟩ :=
    claim_C4_requestSynthesis "createUser" "POST"
      [("application/json", some (some exUserSchema))] exUserSchema rfl
  refine ⟨by decide, fs, heq, hsorted, ?_, ?_, ?_⟩
  · refine (hiff "name").2 ⟨⟨exSchemaString, ?_⟩, by simp⟩
    exact List.Mem.tail _ (List.Mem.head _)
  · intro hid
    have := ((hiff "id").1 hid).2
    simp at this
  · intro hca
    have := ((hiff "created_at").1 hca).2
    simp at this

/-! ### Domain type builder (types.go).  `TypeField.typ` stands for the Go
struct field `Type` (a Lean keyword). -/

structure TypeField : Type where
  Name : String
  typ : String
  Tags : String
  Comment : String

structure TypeDefinition : Type where
  Name : String
  Fields : List TypeField

/-- Go map indexing `schema.Properties[propName]`: the stored `*SchemaRef`
(nil when the key is absent, which cannot happen for keys drawn from the
same map). -/
def findProp (props : List (String × Option (Option Schema))) (name : String) :
    Option (Option Schema) :=
  match props.find? (fun p => p.1 == name) with
  | some p => p.2
  | none => none

theorem sizeOf_lt_of_findProp {props : List (String × Option (Option Schema))}
    {n : String} {v : Schema} (h : findProp props n = some (some v)) :
    sizeOf v < sizeOf props := by
  unfold findProp at h
  cases hfind : props.find? (fun p => p.1 == n) with
  | none => rw [hfind] at h; cases h
  | some p =>
    rw [hfind] at h
    have hmem := List.mem_of_find?_eq_some hfind
    have hsz := List.sizeOf_lt_of_mem hmem
    rcases p with ⟨q, w⟩
    dsimp only at h
    subst h
    simp only [Prod.mk.sizeOf_spec] at hsz
    have h2 : sizeOf (some (some v)) = 2 + sizeOf v := by
      simp
      omega
    omega

theorem Schema.sizeOf_properties_lt (s : Schema) :
    sizeOf s.properties < sizeOf s := by
  cases s
  simp only [Schema.properties, Schema.mk.sizeOf_spec]
  omega

mutual

/-- TypeGenerator.mapToGoType (types.go 273-283): nested objects become
inline struct definitions, everything else goes through the shared mapper. -/
def mapToGoType (s : Schema) (allowNested : Bool) : Except String String :=
  if s.type = "object" ∧ allowNested then
    generateStructDefinition "" s true
  else MapSchemaToGoType s
termination_by (sizeOf s, 2, 0)
decreasing_by
  exact Prod.Lex.right _ (Prod.Lex.left _ _ (by omega))

/-- TypeGenerator.generateStructDefinition (types.go 219-268). -/
def generateStructDefinition (name : String) (s : Schema) (isNested : Bool) :
    Except String String :=
  match structFieldsLoop s
      ((s.properties.map (fun p => p.1)).insertionSort (· ≤ ·)) with
  | .error e => .error e
  | .ok body =>
    .ok ((if !isNested then
            (if s.description ≠ "" then
              "// " ++ name ++ " " ++ s.description ++ "\n"
             else "// " ++ name ++ " represents a " ++ name ++ " object\n")
            ++ "type " ++ name ++ " struct \x7b\n"
          else "struct \x7b\n") ++ body ++ "\x7d")
termination_by (sizeOf s, 1, 0)
decreasing_by
  simp_wf
  exact Prod.Lex.right _ (Prod.Lex.left _ _ (by omega))

/-- The property loop of generateStructDefinition (types.go 244-264),
running over the sorted property names. -/
def structFieldsLoop (s : Schema) (names : List String) : Except String String :=
  match names with
  | [] => .ok ""
  | n :: rest =>
    match hfp : findProp s.properties n with
    | some (some prop) =>
      match mapToGoType prop true with
      | .error e => .error e
      | .ok ft =>
        match structFieldsLoop s rest with
        | .error e => .error e
        | .ok restStr =>
          .ok ((if prop.description ≠ "" then
                  "\t// " ++ prop.description ++ "\n"
                else "")
            ++ "\t" ++ ToGoFieldName n ++ " " ++ ft ++ " "
            ++ generateFieldTags n prop s.required ++ "\n" ++ restStr)
    | _ => structFieldsLoop s rest
termination_by (sizeOf s, 0, names.length)
decreasing_by
  · simp_wf
    exact Prod.Lex.left _ _
      (lt_trans (sizeOf_lt_of_findProp hfp) (Schema.sizeOf_properties_lt s))
  · simp_wf
    exact Prod.Lex.right _ (Prod.Lex.right _ (by omega))
  · simp_wf
    exact Prod.Lex.right _ (Prod.Lex.right _ (by omega))

end

/-- Capitalize the first byte of a part (`strings.ToUpper(part[:1]) + part[1:]`,
ASCII). -/
def upperFirst (part : String) : String :=
  match part.data with
  | [] => part
  | c :: cs => String.mk (c.toUpper :: cs)

/-- formatFieldName (types.go 354-368): lower-cased `id` becomes `ID`,
otherwise split on underscores and capitalize each nonempty part. -/
def formatFieldName (name : String) : String :=
  if goToLower name = "id" then "ID"
  else
    String.join ((name.splitOn "_").map
      (fun part => if part = "" then part else upperFirst part))

/-- The property loop of buildTypeDefinition (types.go 157-188), over the
sorted property names.  A nil `prop.Value` is skipped (`continue`); a key
missing from the map cannot occur because the names are drawn from it. -/
def buildTypeFields (s : Schema) : List String → Except String (List TypeField)
  | [] => .ok []
  | n :: rest =>
    match findProp s.properties n with
    | some (some prop) =>
      match mapToGoType prop true with
      | .error e =>
        .error ("failed to map property " ++ n ++ " to Go type: " ++ e)
      | .ok goType =>
        match buildTypeFields s rest with
        | .error e => .error e
        | .ok fs =>
          .ok (⟨formatFieldName n, goType,
                generateFieldTags n prop s.required,
                if prop.description ≠ "" then "// " ++ prop.description
                else "//"⟩ :: fs)
    | _ => buildTypeFields s rest

/-- buildTypeDefinition (types.go 137-192).  Go distinguishes a nil property
map from an empty one; both yield an empty field list, so the model only
tests the schema type. -/
def buildTypeDefinition (name : String) (s : Schema) :
    Except String TypeDefinition :=
  if s.type = "object" then
    match buildTypeFields s
        ((s.properties.map (fun p => p.1)).insertionSort (· ≤ ·)) with
    | .error e => .error e
    | .ok fs => .ok ⟨name, fs⟩
  else .ok ⟨name, []⟩

/-- The date-time test of collectImports (types.go 110-134) on one schema:
some property with a non-nil value of type string and format date-time. -/
def schemaHasTimeProp (s : Schema) : Bool :=
  s.properties.any (fun p =>
    match p.2 with
    | some (some v) => v.type = "string" && v.format = "date-time"
    | _ => false)

/-- collectImports: the only import the loop can record is `time`; the
resulting set is returned sorted. -/
def collectImports (schemas : List (String × Schema)) : List String :=
  if schemas.any (fun p => schemaHasTimeProp p.2) then ["time"] else []

structure TypeTemplateData : Type where
  HasTimeType : Bool
  AdditionalImports : List String
  Types : List TypeDefinition

/-- Go map indexing `schemas[name]` on the schema map. -/
def findSchema (schemas : List (String × Schema)) (name : String) :
    Option Schema :=
  (schemas.find? (fun p => p.1 == name)).map (fun p => p.2)

/-- The loop of GenerateTypes over the sorted schema names (types.go 78-86).
A missing name cannot occur (the names are the map's own keys); it is mapped
to an error, where Go would dereference a nil pointer. -/
def buildDefsLoop (schemas : List (String × Schema)) :
    List String → Except String (List TypeDefinition)
  | [] => .ok []
  | n :: rest =>
    match findSchema schemas n with
    | some s =>
      match buildTypeDefinition n s with
      | .error e => .error ("failed to generate type for " ++ n ++ ": " ++ e)
      | .ok td =>
        match buildDefsLoop schemas rest with
        | .error e => .error e
        | .ok tds => .ok (td :: tds)
    | none => .error ("failed to generate type for " ++ n)

/-- GenerateTypes (types.go 54-107) up to the template data: sorted schema
names, import collection, and the type-definition list. -/
def GenerateTypesData (schemas : List (String × Schema)) :
    Except String TypeTemplateData :=
  match buildDefsLoop schemas
      ((schemas.map (fun p => p.1)).insertionSort (· ≤ ·)) with
  | .error e => .error e
  | .ok tds =>
    .ok ⟨(collectImports schemas).contains "time",
         ((collectImports schemas).filter (fun i => i ≠ "time")).map
           (fun i => "\"" ++ i ++ "\""),
         tds⟩

/-! ### Determinism of the type builder (C2). -/

/-- In an association list with nodup keys, entries are determined by their
key. -/
theorem eq_of_mem_of_nodupKeys {β : Type} :
    ∀ {l : List (String × β)}, (l.map (fun p => p.1)).Nodup →
      ∀ {p q : String × β}, p ∈ l → q ∈ l → p.1 = q.1 → p = q := by
  intro l
  induction l with
  | nil =>
    intro _ p q hp
    simp at hp
  | cons r rest ih =>
    intro nd p q hp hq hk
    rw [List.map_cons, List.nodup_cons] at nd
    rcases List.mem_cons.1 hp with rfl | hp' <;>
      rcases List.mem_cons.1 hq with rfl | hq'
    · rfl
    · exfalso
      apply nd.1
      rw [hk]
      exact List.mem_map_of_mem _ hq'
    · exfalso
      apply nd.1
      rw [← hk]
      exact List.mem_map_of_mem _ hp'
    · exact ih nd.2 hp' hq' hk

/-- Key lookup by `find?` is invariant under permutations of an association
list with nodup keys. -/
theorem find?_key_eq_of_perm {β : Type} {l1 l2 : List (String × β)}
    (nd : (l1.map (fun p => p.1)).Nodup) (hp : l1.Perm l2) (k : String) :
    l1.find? (fun p => p.1 == k) = l2.find? (fun p => p.1 == k) := by
  cases hf1 : l1.find? (fun p => p.1 == k) with
  | none =>
    rw [List.find?_eq_none] at hf1
    symm
    exact List.find?_eq_none.2 (fun x hx => hf1 x (hp.mem_iff.2 hx))
  | some p =>
    have hpred := List.find?_some hf1
    have hmem := List.mem_of_find?_eq_some hf1
    have hmem2 := hp.mem_iff.1 hmem
    have hsome : (l2.find? (fun p => p.1 == k)).isSome :=
      List.find?_isSome.2 ⟨p, hmem2, hpred⟩
    obtain ⟨q, hq⟩ := Option.isSome_iff_exists.1 hsome
    have hqpred := List.find?_some hq
    have hqmem := hp.mem_iff.2 (List.mem_of_find?_eq_some hq)
    have hpq : p = q := by
      apply eq_of_mem_of_nodupKeys nd hmem hqmem
      have h1 : p.1 = k := eq_of_beq hpred
      have h2 : q.1 = k := eq_of_beq hqpred
      rw [h1, h2]
    rw [hq, hpq]

/-- Sorting by `≤` maps permuted string lists to the same list. -/
theorem insertionSort_eq_of_perm {l1 l2 : List String} (h : l1.Perm l2) :
    l1.insertionSort (· ≤ ·) = l2.insertionSort (· ≤ ·) :=
  List.eq_of_perm_of_sorted
    (((List.perm_insertionSort _ l1).trans h).trans
      (List.perm_insertionSort _ l2).symm)
    (List.sorted_insertionSort _ _) (List.sorted_insertionSort _ _)

/-- `List.any` is invariant under permutation. -/
theorem any_eq_of_perm {α : Type} {l1 l2 : List α} (h : l1.Perm l2)
    (f : α → Bool) : l1.any f = l2.any f := by
  cases h1 : l1.any f <;> cases h2 : l2.any f
  · rfl
  · rw [List.any_eq_true] at h2
    obtain ⟨x, hx, hfx⟩ := h2
    have hcontra := List.any_eq_true.2 ⟨x, h.mem_iff.2 hx, hfx⟩
    rw [h1] at hcontra
    cases hcontra
  · rw [List.any_eq_true] at h1
    obtain ⟨x, hx, hfx⟩ := h1
    have hcontra := List.any_eq_true.2 ⟨x, h.mem_iff.1 hx, hfx⟩
    rw [h2] at hcontra
    cases hcontra
  · rfl

theorem findSchema_eq_of_perm {s1 s2 : List (String × Schema)}
    (nd : (s1.map (fun p => p.1)).Nodup) (hp : s1.Perm s2) (n : String) :
    findSchema s1 n = findSchema s2 n := by
  unfold findSchema
  rw [find?_key_eq_of_perm nd hp n]

theorem findProp_eq_of_perm
    {props1 props2 : List (String × Option (Option Schema))}
    (nd : (props1.map (fun p => p.1)).Nodup) (hp : props1.Perm props2)
    (n : String) : findProp props1 n = findProp props2 n := by
  unfold findProp
  rw [find?_key_eq_of_perm nd hp n]

theorem buildDefsLoop_congr {s1 s2 : List (String × Schema)}
    (hfind : ∀ n, findSchema s1 n = findSchema s2 n) :
    ∀ names, buildDefsLoop s1 names = buildDefsLoop s2 names
  | [] => rfl
  | n :: rest => by
    unfold buildDefsLoop
    rw [hfind n, buildDefsLoop_congr hfind rest]

/-- The generated type keeps the schema name. -/
theorem buildTypeDefinition_name {name : String} {s : Schema}
    {td : TypeDefinition} (h : buildTypeDefinition name s = .ok td) :
    td.Name = name := by
  unfold buildTypeDefinition at h
  split_ifs at h
  · split at h
    · cases h
    · cases h
      rfl
  · cases h
    rfl

/-- The type-definition loop emits exactly the processed names, in order. -/
theorem buildDefsLoop_names {schemas : List (String × Schema)} :
    ∀ {names : List String} {tds : List TypeDefinition},
      buildDefsLoop schemas names = .ok tds →
      tds.map (fun td => td.Name) = names := by
  intro names
  induction names with
  | nil =>
    intro tds h
    cases h
    rfl
  | cons n rest ih =>
    intro tds h
    unfold buildDefsLoop at h
    cases hfs : findSchema schemas n with
    | none =>
      rw [hfs] at h
      cases h
    | some s =>
      rw [hfs] at h
      dsimp only at h
      cases hbtd : buildTypeDefinition n s with
      | error e =>
        rw [hbtd] at h
        cases h
      | ok td =>
        rw [hbtd] at h
        cases hloop : buildDefsLoop schemas rest with
        | error e =>
          rw [hloop] at h
          cases h
        | ok tds' =>
          rw [hloop] at h
          cases h
          rw [List.map_cons, ih hloop, buildTypeDefinition_name hbtd]

/-- Replace the property map of a schema (for permutation statements). -/
def Schema.withProperties :
    Schema → List (String × Option (Option Schema)) → Schema
  | .mk t f i a _ r d mnl mxl p e mn mx, props =>
    .mk t f i a props r d mnl mxl p e mn mx

theorem Schema.withProperties_properties (s : Schema)
    (props : List (String × Option (Option Schema))) :
    (s.withProperties props).properties = props := by
  cases s
  rfl

theorem Schema.withProperties_required (s : Schema)
    (props : List (String × Option (Option Schema))) :
    (s.withProperties props).required = s.required := by
  cases s
  rfl

theorem Schema.withProperties_type (s : Schema)
    (props : List (String × Option (Option Schema))) :
    (s.withProperties props).type = s.type := by
  cases s
  rfl

/-- The field loop only looks at a schema through property lookup and the
required list. -/
theorem buildTypeFields_congr {s1 s2 : Schema}
    (hfp : ∀ n, findProp s1.properties n = findProp s2.properties n)
    (hreq : s1.required = s2.required) :
    ∀ names, buildTypeFields s1 names = buildTypeFields s2 names
  | [] => rfl
  | n :: rest => by
    unfold buildTypeFields
    rw [hfp n, hreq, buildTypeFields_congr hfp hreq rest]

/-- C2: the domain type builder is deterministic.  Conjuncts: (1) the
template data is invariant under permutation of the schema map; (2) a
type definition is invariant under permutation of its schema's property
map; (3) on success the emitted type names are exactly the schema names in
lexicographically sorted order; (4) each type's fields are produced from
its property names in sorted order; (5) the emitted tag string is the
space-join of the sorted rendered tag entries. -/
theorem claim_C2_typeBuilderDeterminism :
    (∀ (schemas1 schemas2 : List (String × Schema)),
      (schemas1.map (fun p => p.1)).Nodup → schemas1.Perm schemas2 →
      GenerateTypesData schemas1 = GenerateTypesData schemas2)
    ∧ (∀ (name : String) (s : Schema)
        (props1 props2 : List (String × Option (Option Schema))),
        (props1.map (fun p => p.1)).Nodup → props1.Perm props2 →
        buildTypeDefinition name (s.withProperties props1) =
          buildTypeDefinition name (s.withProperties props2))
    ∧ (∀ (schemas : List (String × Schema)) (data : TypeTemplateData),
        GenerateTypesData schemas = .ok data →
        data.Types.map (fun td => td.Name) =
          (schemas.map (fun p => p.1)).insertionSort (· ≤ ·))
    ∧ (∀ (name : String) (s : Schema) (td : TypeDefinition),
        buildTypeDefinition name s = .ok td → s.type = "object" →
        ∃ ns, List.Sorted (· ≤ ·) ns
          ∧ ns.Perm (s.properties.map (fun p => p.1))
          ∧ buildTypeFields s ns = .ok td.Fields)
    ∧ (∀ (name : String) (s : Schema) (req : List String),
        ∃ l, List.Sorted (· ≤ ·) l
          ∧ l.Perm ((generateFieldTagPairs name s req).map
              (fun p => p.1 ++ ":\"" ++ p.2 ++ "\""))
          ∧ generateFieldTags name s req = String.intercalate " " l) := by
  refine ⟨?_, ?_, ?_, ?_, ?_⟩
  · intro s1 s2 nd hp
    have himp : collectImports s1 = collectImports s2 := by
      unfold collectImports
      rw [any_eq_of_perm hp]
    unfold GenerateTypesData
    rw [insertionSort_eq_of_perm (hp.map _),
      buildDefsLoop_congr (findSchema_eq_of_perm nd hp), himp]
  · intro name s props1 props2 nd hp
    have hfpn : ∀ n, findProp (s.withProperties props1).properties n =
        findProp (s.withProperties props2).properties n := by
      intro n
      rw [Schema.withProperties_properties, Schema.withProperties_properties]
      exact findProp_eq_of_perm nd hp n
    have hreq : (s.withProperties props1).required =
        (s.withProperties props2).required := by
      rw [Schema.withProperties_required, Schema.withProperties_required]
    unfold buildTypeDefinition
    rw [Schema.withProperties_type, Schema.withProperties_type]
    by_cases htype : s.type = "object"
    · rw [if_pos htype, if_pos htype,
        Schema.withProperties_properties, Schema.withProperties_properties,
        insertionSort_eq_of_perm (hp.map _), buildTypeFields_congr hfpn hreq]
    · rw [if_neg htype, if_neg htype]
  · intro schemas data h
    unfold GenerateTypesData at h
    cases hloop : buildDefsLoop schemas
        ((schemas.map (fun p => p.1)).insertionSort (· ≤ ·)) with
    | error e =>
      rw [hloop] at h
      cases h
    | ok tds =>
      rw [hloop] at h
      cases h
      exact buildDefsLoop_names hloop
  · intro name s td h htype
    refine ⟨(s.properties.map (fun p => p.1)).insertionSort (· ≤ ·),
      List.sorted_insertionSort _ _, List.perm_insertionSort _ _, ?_⟩
    unfold buildTypeDefinition at h
    rw [if_pos htype] at h
    cases hfields : buildTypeFields s
        ((s.properties.map (fun p => p.1)).insertionSort (· ≤ ·)) with
    | error e =>
      rw [hfields] at h
      cases h
    | ok fs =>
      rw [hfields] at h
      cases h
      rfl
  · intro name s req
    exact ⟨_, List.sorted_insertionSort _ _, List.perm_insertionSort _ _, rfl⟩

/-- Witness for C2: swapping the two entries of a concrete schema map leaves
the generated template data unchanged. -/
theorem claim_C2_witness :
    GenerateTypesData [("B", exUserSchema), ("A", exSchemaString)] =
      GenerateTypesData [("A", exSchemaString), ("B", exUserSchema)] :=
  claim_C2_typeBuilderDeterminism.1 _ _ (by decide) (List.Perm.swap _ _ _)

/-! ### File writing policy (cli, writeMainFiles, part_000 lines 225-254).
The file system is modelled as a map from filename to optional content;
`os.Stat`/`os.IsNotExist` becomes `Option.isSome`. -/

/-- `strings.HasSuffix` (byte-wise). -/
def goHasSuffix (s suffix : String) : Bool :=
  List.isSuffixOf suffix.data s.data

/-- The per-file write decision: derived files (`routes.go`, `database.go`)
are always written; any other file is written when absent or when the
overwrite flag is set. -/
def shouldWriteFile (overwrite : Bool) (filename : String)
    (fileExists : Bool) : Bool :=
  if goHasSuffix filename "routes.go" || goHasSuffix filename "database.go" then
    true
  else if !fileExists then true
  else overwrite

/-- The write loop of writeMainFiles over the generated file map. -/
def writeMainFiles (overwrite : Bool) (files : List (String × String))
    (fs : String → Option String) : String → Option String :=
  files.foldl
    (fun st p =>
      if shouldWriteFile overwrite p.1 (st p.1).isSome then
        fun x => if x = p.1 then some p.2 else st x
      else st)
    fs

/-- Files never named by the loop keep their state. -/
theorem writeMainFiles_notMem (ov : Bool) :
    ∀ (files : List (String × String)) (fs : String → Option String)
      (fn : String), fn ∉ files.map (fun p => p.1) →
      writeMainFiles ov files fs fn = fs fn
  | [], _, _, _ => rfl
  | p :: rest, fs, fn, h => by
    have hne : fn ≠ p.1 := by
      intro hc
      exact h (by rw [hc]; exact List.mem_map_of_mem _ (List.mem_cons_self p rest))
    unfold writeMainFiles
    rw [List.foldl_cons]
    have hrest : fn ∉ rest.map (fun p => p.1) :=
      fun hc => h (List.mem_cons_of_mem _ hc)
    have hres := writeMainFiles_notMem ov rest
      (if shouldWriteFile ov p.1 (fs p.1).isSome then
        fun x => if x = p.1 then some p.2 else fs x
       else fs) fn hrest
    unfold writeMainFiles at hres
    rw [hres]
    split_ifs with h1
    · simp only [if_neg hne]
    · rfl

/-- The state at a filename with a unique entry in the file map: written
with that entry's content when the decision allows, untouched otherwise. -/
theorem writeMainFiles_mem (ov : Bool) {files : List (String × String)}
    (nd : (files.map (fun p => p.1)).Nodup) {fn c : String}
    (hmem : (fn, c) ∈ files) (fs : String → Option String) :
    writeMainFiles ov files fs fn =
      if shouldWriteFile ov fn (fs fn).isSome then some c else fs fn := by
  obtain ⟨pre, post, rfl⟩ := List.append_of_mem hmem
  rw [List.map_append, List.map_cons] at nd
  have hdisj := (List.nodup_append.1 nd).2.2
  have hpre : fn ∉ pre.map (fun p => p.1) :=
    fun hc => hdisj hc (List.mem_cons_self _ _)
  have hpost : fn ∉ post.map (fun p => p.1) :=
    (List.nodup_cons.1 (List.nodup_append.1 nd).2.1).1
  unfold writeMainFiles
  rw [List.foldl_append, List.foldl_cons]
  have hprefix : pre.foldl _ fs fn = fs fn := writeMainFiles_notMem ov pre fs fn hpre
  set st := pre.foldl
    (fun st p =>
      if shouldWriteFile ov p.1 (st p.1).isSome then
        fun x => if x = p.1 then some p.2 else st x
      else st) fs with hst
  have hstfn : st fn = fs fn := by
    have := writeMainFiles_notMem ov pre fs fn hpre
    unfold writeMainFiles at this
    exact this
  have hrest := writeMainFiles_notMem ov post
    (if shouldWriteFile ov fn (st fn).isSome then
      fun x => if x = fn then some c else st x
     else st) fn hpost
  unfold writeMainFiles at hrest
  rw [hrest]
  rw [hstfn]
  split_ifs with h1
  · simp
  · exact hstfn

/-- With `overwrite=false`, a run never touches an existing stable file. -/
theorem writeMainFiles_stable_keep :
    ∀ (files : List (String × String)) (st : String → Option String)
      (fn c : String),
      ¬(goHasSuffix fn "routes.go" || goHasSuffix fn "database.go") →
      st fn = some c → writeMainFiles false files st fn = some c
  | [], _, _, _, _, hst => hst
  | p :: rest, st, fn, c, hstable, hst => by
    unfold writeMainFiles
    rw [List.foldl_cons]
    apply writeMainFiles_stable_keep rest _ fn c hstable
    split_ifs with h1
    · by_cases hfp : fn = p.1
      · subst hfp
        rw [shouldWriteFile] at h1
        rw [hst] at h1
        simp only [Option.isSome_some, Bool.not_true, if_false] at h1
        rw [if_neg (by simpa using hstable)] at h1
        simp at h1
      · simp only [if_neg hfp]
        exact hst
    · exact hst

/-- C8: the per-file write decision is a fixed function of the filename, the
prior existence and the overwrite flag — derived `routes.go`/`database.go`
files are always written, any other file only when absent or forced; hence
running the pipeline twice with overwrite=false leaves a stable file's
first-run content in place while derived files carry the second run's
content. -/
theorem claim_C8_writePolicy :
    (∀ (ov : Bool) (fn : String) (ex : Bool),
      shouldWriteFile ov fn ex =
        (goHasSuffix fn "routes.go" || goHasSuffix fn "database.go" || !ex || ov))
    ∧ (∀ (files1 files2 : List (String × String))
        (fs0 : String → Option String) (fn c1 : String),
        (files1.map (fun p => p.1)).Nodup →
        ¬(goHasSuffix fn "routes.go" || goHasSuffix fn "database.go") →
        (fn, c1) ∈ files1 → fs0 fn = none →
        writeMainFiles false files2 (writeMainFiles false files1 fs0) fn =
          some c1)
    ∧ (∀ (files1 files2 : List (String × String))
        (fs0 : String → Option String) (fn c2 : String),
        (files2.map (fun p => p.1)).Nodup →
        (goHasSuffix fn "routes.go" || goHasSuffix fn "database.go") →
        (fn, c2) ∈ files2 →
        writeMainFiles false files2 (writeMainFiles false files1 fs0) fn =
          some c2) := by
  refine ⟨?_, ?_, ?_⟩
  · intro ov fn ex
    unfold shouldWriteFile
    cases hder : (goHasSuffix fn "routes.go" || goHasSuffix fn "database.go") <;>
      cases ex <;> cases ov <;> simp
  · intro files1 files2 fs0 fn c1 nd1 hstable hmem1 habsent
    apply writeMainFiles_stable_keep files2 _ fn c1 hstable
    rw [writeMainFiles_mem false nd1 hmem1 fs0, habsent]
    have : shouldWriteFile false fn (none : Option String).isSome = true := by
      unfold shouldWriteFile
      split_ifs <;> simp_all
    rw [this]
    simp
  · intro files1 files2 fs0 fn c2 nd2 hder hmem2
    rw [writeMainFiles_mem false nd2 hmem2 _]
    have : shouldWriteFile false fn
        ((writeMainFiles false files1 fs0) fn).isSome = true := by
      unfold shouldWriteFile
      rw [if_pos hder]
    rw [this]
    simp

/-- Witness for C8: two runs over a main.go / routes.go pair. -/
theorem claim_C8_witness :
    writeMainFiles false [("main.go", "v2"), ("routes.go", "r2")]
      (writeMainFiles false [("main.go", "v1"), ("routes.go", "r1")]
        (fun _ => none)) "main.go" = some "v1"
    ∧ writeMainFiles false [("main.go", "v2"), ("routes.go", "r2")]
      (writeMainFiles false [("main.go", "v1"), ("routes.go", "r1")]
        (fun _ => none)) "routes.go" = some "r2" :=
  ⟨claim_C8_writePolicy.2.1 _ _ _ _ _ (by decide) (by decide)
    (List.mem_cons_self _ _) rfl,
   claim_C8_writePolicy.2.2 _ _ _ _ _ (by decide) (by decide)
    (List.Mem.tail _ (List.Mem.head _))⟩

/-! ### Paths, operations and CRUD classification (parser, part_003).
Go compares operation pointers (`pathItem.Get == operation`); the heap is
modelled by keeping the operation nodes in a list and letting every method
field of a path item hold an index (`Option Nat`, `none` for a nil
pointer).  Only the operation fields read by these functions are kept. -/

structure RespBody : Type where
  content : MediaTypeMap

structure Operation : Type where
  operationID : String
  tags : List String
  responses : Option (List (String × Option RespBody))

structure PathItem : Type where
  get : Option Nat
  post : Option Nat
  put : Option Nat
  delete : Option Nat
  options : Option Nat
  head : Option Nat
  patch : Option Nat

structure Doc : Type where
  paths : List (String × PathItem)
  ops : List Operation

/-- Dereference an operation pointer. -/
def opAt (doc : Doc) (r : Nat) : Option Operation := doc.ops.get? r

/-- The operationID behind a reference (dangling references do not occur in
a real heap and behave like an empty id). -/
def opIDAt (doc : Doc) (r : Nat) : String :=
  match opAt doc r with
  | some op => op.operationID
  | none => ""

/-- Go map assignment `m[k] = v` on an association list. -/
def mapSet {β : Type} (m : List (String × β)) (k : String) (v : β) :
    List (String × β) :=
  if m.any (fun p => p.1 == k) then
    m.map (fun p => if p.1 == k then (k, v) else p)
  else m ++ [(k, v)]

/-- Go map read `m[k]` on an association list. -/
def mapGet {β : Type} (m : List (String × β)) (k : String) : Option β :=
  (m.find? (fun p => p.1 == k)).map (fun p => p.2)

theorem find?_keyCons_pos {β : Type} (q : String × β) (l : List (String × β))
    (k : String) (h : (q.1 == k) = true) :
    List.find? (fun p => p.1 == k) (q :: l) = some q := by
  simp [List.find?, h]

theorem find?_keyCons_neg {β : Type} (q : String × β) (l : List (String × β))
    (k : String) (h : (q.1 == k) = false) :
    List.find? (fun p => p.1 == k) (q :: l) =
      List.find? (fun p => p.1 == k) l := by
  simp [List.find?, h]

theorem mapGet_map_replace {β : Type} (k : String) (v : β) :
    ∀ m : List (String × β),
      mapGet (m.map (fun p => if p.1 == k then (k, v) else p)) k =
        (mapGet m k).map (fun _ => v)
  | [] => rfl
  | p :: rest => by
    by_cases h : (p.1 == k) = true
    · unfold mapGet
      rw [List.map_cons, if_pos h]
      rw [find?_keyCons_pos _ _ _ (by simp), find?_keyCons_pos _ _ _ h]
      rfl
    · have h' : (p.1 == k) = false := by simpa using h
      unfold mapGet
      rw [List.map_cons, if_neg h]
      rw [find?_keyCons_neg _ _ _ h', find?_keyCons_neg _ _ _ h']
      exact mapGet_map_replace k v rest

theorem mapGet_append_single {β : Type} (k : String) (v : β) :
    ∀ m : List (String × β), (∀ p ∈ m, ¬(p.1 == k) = true) →
      mapGet (m ++ [(k, v)]) k = some v
  | [], _ => by simp [mapGet, List.find?]
  | p :: rest, h => by
    unfold mapGet
    rw [List.cons_append,
      find?_keyCons_neg _ _ _ (by simpa using h p (by simp))]
    exact mapGet_append_single k v rest
      (fun q hq => h q (List.mem_cons_of_mem _ hq))

/-- Reading back the key just assigned. -/
theorem mapGet_mapSet_self {β : Type} (m : List (String × β)) (k : String)
    (v : β) : mapGet (mapSet m k v) k = some v := by
  unfold mapSet
  split_ifs with h
  · rw [mapGet_map_replace]
    rw [List.any_eq_true] at h
    obtain ⟨p, hp, hpk⟩ := h
    have hsome : (m.find? (fun p => p.1 == k)).isSome :=
      List.find?_isSome.2 ⟨p, hp, hpk⟩
    obtain ⟨q, hq⟩ := Option.isSome_iff_exists.1 hsome
    rw [mapGet, hq]
    rfl
  · simp only [Bool.not_eq_true] at h
    rw [List.any_eq_false] at h
    exact mapGet_append_single k v m h

/-- Assignment does not disturb other keys. -/
theorem mapGet_mapSet_other {β : Type} (k k' : String) (v : β)
    (hne : k' ≠ k) :
    ∀ m : List (String × β), mapGet (mapSet m k v) k' = mapGet m k' := by
  intro m
  unfold mapSet
  split_ifs with h
  · clear h
    induction m with
    | nil => rfl
    | cons p rest ih =>
      by_cases hp : (p.1 == k) = true
      · unfold mapGet
        rw [List.map_cons, if_pos hp]
        have h1 : ((k, v).1 == k') = false := by
          simp
          exact fun hc => hne hc.symm
        have h2 : (p.1 == k') = false := by
          simp
          intro hc
          exact hne (hc ▸ (eq_of_beq hp))
        rw [find?_keyCons_neg _ _ _ h1, find?_keyCons_neg _ _ _ h2]
        exact ih
      · unfold mapGet
        rw [List.map_cons, if_neg hp]
        by_cases hp' : (p.1 == k') = true
        · rw [find?_keyCons_pos _ _ _ hp', find?_keyCons_pos _ _ _ hp']
        · rw [find?_keyCons_neg _ _ _ (by simpa using hp'),
            find?_keyCons_neg _ _ _ (by simpa using hp')]
          exact ih
  · clear h
    induction m with
    | nil =>
      unfold mapGet
      rw [List.nil_append,
        find?_keyCons_neg _ _ _ (by simp; exact fun hc => hne hc.symm)]
    | cons p rest ih =>
      unfold mapGet
      rw [List.cons_append]
      by_cases hp' : (p.1 == k') = true
      · rw [find?_keyCons_pos _ _ _ hp', find?_keyCons_pos _ _ _ hp']
      · rw [find?_keyCons_neg _ _ _ (by simpa using hp'),
          find?_keyCons_neg _ _ _ (by simpa using hp')]
        exact ih

/-- One method-field step of GetOperations (part_003, 77-97): record the
operation under its id when the pointer is non-nil and the id nonempty. -/
def addOp (doc : Doc) (m : List (String × Nat)) (oref : Option Nat) :
    List (String × Nat) :=
  match oref with
  | none => m
  | some r => if opIDAt doc r ≠ "" then mapSet m (opIDAt doc r) r else m

/-- GetOperations (part_003, 69-101): scan every path item, fields in source
order get, post, put, delete, options, head, patch. -/
def GetOperations (doc : Doc) : List (String × Nat) :=
  doc.paths.foldl
    (fun m p =>
      addOp doc (addOp doc (addOp doc (addOp doc (addOp doc (addOp doc
        (addOp doc m p.2.get) p.2.post) p.2.put) p.2.delete)
        p.2.options) p.2.head) p.2.patch)
    []

/-- isListOperation (part_003, 141-156): the declared `200` response has
some media type whose schema is array-typed. -/
def isListOperation (doc : Doc) (r : Nat) : Bool :=
  match opAt doc r with
  | none => false
  | some op =>
    match op.responses with
    | none => false
    | some rs =>
      match mapGet rs "200" with
      | some (some rb) =>
        rb.content.any (fun p =>
          match p.2 with
          | some (some s) => s.type == "array"
          | _ => false)
      | _ => false

/-- The if/else chain of GetCrudOperationsForSchema (part_003, 117-129) for
one path item, comparing operation nodes by identity. -/
def crudChainForPath (doc : Doc) (pi : PathItem) (r : Nat) (opID : String)
    (result : List (String × String)) : List (String × String) :=
  if pi.get = some r then
    (if isListOperation doc r then mapSet result "list" opID
     else mapSet result "get" opID)
  else if pi.post = some r then mapSet result "create" opID
  else if pi.put = some r ∨ pi.patch = some r then mapSet result "update" opID
  else if pi.delete = some r then mapSet result "delete" opID
  else result

/-- The scan over all path items for one operation (the loop at part_003,
116-130). -/
def crudScanPaths (doc : Doc) (r : Nat) (opID : String)
    (result : List (String × String)) : List (String × String) :=
  doc.paths.foldl (fun res p => crudChainForPath doc p.2 r opID res) result

/-- GetCrudOperationsForSchema (part_003, 105-137). -/
def GetCrudOperationsForSchema (doc : Doc) (schemaName : String) :
    List (String × String) :=
  (GetOperations doc).foldl
    (fun res p =>
      match opAt doc p.2 with
      | some op =>
        op.tags.foldl
          (fun res2 tag =>
            if tag = schemaName then crudScanPaths doc p.2 p.1 res2 else res2)
          res
      | none => res)
    []

/-- A path item whose five classified method fields all differ from `r`. -/
def crudRelevant (pi : PathItem) (r : Nat) : Prop :=
  pi.get = some r ∨ pi.post = some r ∨ pi.put = some r ∨ pi.patch = some r
  ∨ pi.delete = some r

instance (pi : PathItem) (r : Nat) : Decidable (crudRelevant pi r) := by
  unfold crudRelevant
  infer_instance

theorem crudChainForPath_irrelevant {doc : Doc} {pi : PathItem} {r : Nat}
    {opID : String} (h : ¬crudRelevant pi r)
    (res : List (String × String)) :
    crudChainForPath doc pi r opID res = res := by
  unfold crudRelevant at h
  push_neg at h
  obtain ⟨h1, h2, h3, h4, h5⟩ := h
  unfold crudChainForPath
  rw [if_neg h1, if_neg h2, if_neg (by rw [not_or]; exact ⟨h3, h4⟩), if_neg h5]

theorem crudFold_irrelevant {doc : Doc} {r : Nat} {opID : String} :
    ∀ (l : List (String × PathItem)), (∀ q ∈ l, ¬crudRelevant q.2 r) →
      ∀ res, l.foldl (fun res p => crudChainForPath doc p.2 r opID res) res = res
  | [], _, _ => rfl
  | q :: rest, h, res => by
    rw [List.foldl_cons, crudChainForPath_irrelevant (h q (by simp))]
    exact crudFold_irrelevant rest (fun x hx => h x (List.mem_cons_of_mem _ hx)) res

/-- C5: for an operation node occurring in exactly one classified method
field of one path item, the CRUD scan classifies it by node identity —
POST to `create`, PUT or PATCH to `update`, DELETE to `delete`, and GET
split by the response shape: array-typed 200 response to `list`, any other
GET to `get`. -/
theorem claim_C5_crudClassification (doc : Doc) (r : Nat) (opID : String)
    (pre post : List (String × PathItem)) (pname : String) (pi : PathItem)
    (hpaths : doc.paths = pre ++ (pname, pi) :: post)
    (hothers : ∀ q ∈ pre ++ post, ¬crudRelevant q.2 r) :
    ∀ res : List (String × String),
      (pi.get = some r → isListOperation doc r = true →
        mapGet (crudScanPaths doc r opID res) "list" = some opID)
      ∧ (pi.get = some r → isListOperation doc r = false →
        mapGet (crudScanPaths doc r opID res) "get" = some opID)
      ∧ (pi.get ≠ some r → pi.post = some r →
        mapGet (crudScanPaths doc r opID res) "create" = some opID)
      ∧ (pi.get ≠ some r → pi.post ≠ some r →
          (pi.put = some r ∨ pi.patch = some r) →
        mapGet (crudScanPaths doc r opID res) "update" = some opID)
      ∧ (pi.get ≠ some r → pi.post ≠ some r → pi.put ≠ some r →
          pi.patch ≠ some r → pi.delete = some r →
        mapGet (crudScanPaths doc r opID res) "delete" = some opID) := by
  have hpre : ∀ q ∈ pre, ¬crudRelevant q.2 r :=
    fun q hq => hothers q (List.mem_append_left _ hq)
  have hpost : ∀ q ∈ post, ¬crudRelevant q.2 r :=
    fun q hq => hothers q (List.mem_append_right _ hq)
  intro res
  have hcommon : ∀ key, crudChainForPath doc pi r opID res = mapSet res key opID →
      mapGet (crudScanPaths doc r opID res) key = some opID := by
    intro key hchain
    unfold crudScanPaths
    rw [hpaths, List.foldl_append, List.foldl_cons, crudFold_irrelevant pre hpre res,
      hchain, crudFold_irrelevant post hpost _]
    exact mapGet_mapSet_self res key opID
  refine ⟨?_, ?_, ?_, ?_, ?_⟩
  · intro h1 h2
    apply hcommon
    unfold crudChainForPath
    rw [if_pos h1, if_pos h2]
  · intro h1 h2
    apply hcommon
    unfold crudChainForPath
    rw [if_pos h1, if_neg (by simp [h2])]
  · intro h1 h2
    apply hcommon
    unfold crudChainForPath
    rw [if_neg h1, if_pos h2]
  · intro h1 h2 h3
    apply hcommon
    unfold crudChainForPath
    rw [if_neg h1, if_neg h2, if_pos h3]
  · intro h1 h2 h3 h4 h5
    apply hcommon
    unfold crudChainForPath
    rw [if_neg h1, if_neg h2, if_neg (not_or.2 ⟨h3, h4⟩), if_pos h5]

/-- An array-typed schema node for witnesses. -/
def exSchemaArray : Schema :=
  .mk "array" "" none none [] [] "" 0 none "" [] none none

/-- A two-operation pet document: one GET returning an array and one GET
returning an object, both tagged `Pets`. -/
def exPetsDoc : Doc :=
  ⟨[("/pets", ⟨some 0, none, none, none, none, none, none⟩),
    ("/pets/one", ⟨some 1, none, none, none, none, none, none⟩)],
   [⟨"listPets", ["Pets"],
      some [("200", some ⟨[("application/json", some (some exSchemaArray))]⟩)]⟩,
    ⟨"getPet", ["Pets"],
      some [("200", some ⟨[("application/json", some (some exUserSchema))]⟩)]⟩]⟩

/-- A GET operation whose only (success) response is declared under status
`201` with an array-typed schema. -/
def exDoc201 : Doc :=
  ⟨[("/things", ⟨some 0, none, none, none, none, none, none⟩)],
   [⟨"listThings", ["Things"],
      some [("201", some ⟨[("application/json", some (some exSchemaArray))]⟩)]⟩]⟩

/-- Counterexample for C5 as frozen: this GET's success response content
schema has type array, yet the classifier files it under `get`, not `list`
— the response-shape heuristic reads only the response declared under the
status key `200`. -/
theorem claim_C5_counterexample :
    mapGet (GetCrudOperationsForSchema exDoc201 "Things") "get" =
      some "listThings"
    ∧ mapGet (GetCrudOperationsForSchema exDoc201 "Things") "list" = none := by
  constructor <;> decide

/-- Witness for C5: on `exPetsDoc` the array-typed GET classifies as `list`,
the object-typed GET as `get`; the full classifier agrees. -/
theorem claim_C5_witness :
    mapGet (crudScanPaths exPetsDoc 0 "listPets" []) "list" = some "listPets"
    ∧ mapGet (crudScanPaths exPetsDoc 1 "getPet" []) "get" = some "getPet"
    ∧ mapGet (GetCrudOperationsForSchema exPetsDoc "Pets") "list" =
        some "listPets"
    ∧ mapGet (GetCrudOperationsForSchema exPetsDoc "Pets") "get" =
        some "getPet" := by
  refine ⟨?_, ?_, by decide, by decide⟩
  · exact ((claim_C5_crudClassification exPetsDoc 0 "listPets" []
      [("/pets/one", ⟨some 1, none, none, none, none, none, none⟩)]
      "/pets" ⟨some 0, none, none, none, none, none, none⟩ rfl
      (by rintro q hq; simp at hq; subst hq; decide) []).1 rfl (by decide))
  · exact ((claim_C5_crudClassification exPetsDoc 1 "getPet"
      [("/pets", ⟨some 0, none, none, none, none, none, none⟩)] []
      "/pets/one" ⟨some 1, none, none, none, none, none, none⟩ rfl
      (by rintro q hq; simp at hq; subst hq; decide) []).2.1 rfl (by decide))

/-! ### HTTP handler generation (http.go, GenerateHandlers).  The method
scan of prepareOperationData iterates a Go map literal; the model fixes the
textual order of that literal.  Template rendering happens outside src and
is abstracted by the renderer parameters; insertion into the Go result map
is modelled by appending (the generated filenames are distinct). -/

def methodsOf (pi : PathItem) : List (String × Option Nat) :=
  [("GET", pi.get), ("POST", pi.post), ("PUT", pi.put), ("DELETE", pi.delete),
   ("PATCH", pi.patch), ("OPTIONS", pi.options), ("HEAD", pi.head)]

/-- The method/path scan of prepareOperationData (http.go 263-288). -/
def findMethodPath (doc : Doc) (opID : String) : Option (String × String) :=
  doc.paths.findSome? (fun p =>
    (methodsOf p.2).findSome? (fun mth =>
      match mth.2 with
      | some r => if opIDAt doc r = opID then some (mth.1, p.1) else none
      | none => none))

/-- The per-operation loop of GenerateHandlers (http.go 161-221): skip empty
operation ids, fail when no path declares the operation, emit the mock file
once per domain and the handler and test files per operation. -/
def generateHandlersLoop (doc : Doc) (rh rt rm : String → Nat → String) :
    List (String × Nat) → List String → List (String × String) →
    Except String (List (String × String))
  | [], _, acc => .ok acc
  | (opID, r) :: rest, mocksDone, acc =>
    if opID = "" then generateHandlersLoop doc rh rt rm rest mocksDone acc
    else
      match findMethodPath doc opID with
      | none => .error ("could not find method and path for operation " ++ opID)
      | some _ =>
        match opAt doc r with
        | some op =>
          match op.tags with
          | tag :: _ =>
            generateHandlersLoop doc rh rt rm rest
              (if (mocksDone.contains (goToLower tag)) then mocksDone
               else goToLower tag :: mocksDone)
              ((if (mocksDone.contains (goToLower tag)) then acc
                else acc ++ [("domain/" ++ goToLower tag
                  ++ "/mocks/mock_service.go", rm opID r)])
               ++ [("domain/" ++ goToLower tag ++ "/"
                     ++ goToLower opID ++ "_handler.go", rh opID r),
                   ("domain/" ++ goToLower tag ++ "/"
                     ++ goToLower opID ++ "_handler_test.go", rt opID r)])
          | [] =>
            generateHandlersLoop doc rh rt rm rest mocksDone
              (acc ++ [(goToLower opID ++ "_handler.go", rh opID r),
                       (goToLower opID ++ "_handler_test.go", rt opID r)])
        | none => generateHandlersLoop doc rh rt rm rest mocksDone acc

/-- The GetOperations fold never records an empty key. -/
theorem addOp_preserves_no_empty (doc : Doc) (m : List (String × Nat))
    (oref : Option Nat) (h : mapGet m "" = none) :
    mapGet (addOp doc m oref) "" = none := by
  unfold addOp
  cases oref with
  | none => exact h
  | some r =>
    dsimp only
    split_ifs with hne
    · rw [mapGet_mapSet_other _ _ _ (fun hc => hne hc.symm)]
      exact h
    · exact h

theorem getOpsFold_no_empty (doc : Doc) :
    ∀ (paths : List (String × PathItem)) (m : List (String × Nat)),
      mapGet m "" = none →
      mapGet (paths.foldl
        (fun m p =>
          addOp doc (addOp doc (addOp doc (addOp doc (addOp doc (addOp doc
            (addOp doc m p.2.get) p.2.post) p.2.put) p.2.delete)
            p.2.options) p.2.head) p.2.patch) m) "" = none
  | [], m, h => h
  | p :: rest, m, h => by
    rw [List.foldl_cons]
    exact getOpsFold_no_empty doc rest _
      (by
        apply addOp_preserves_no_empty
        apply addOp_preserves_no_empty
        apply addOp_preserves_no_empty
        apply addOp_preserves_no_empty
        apply addOp_preserves_no_empty
        apply addOp_preserves_no_empty
        apply addOp_preserves_no_empty
        exact h)

/-- C10: an operation with an empty operationID never enters the operation
map (`mapGet (GetOperations doc) "" = none`); the handler loop silently
skips an empty-id operation, adding no handler, test or mock file and no
error; and a later operation with the same non-empty id overwrites an
earlier one in the map. -/
theorem claim_C10_emptyOperationID :
    (∀ doc : Doc, mapGet (GetOperations doc) "" = none)
    ∧ (∀ (doc : Doc) (rh rt rm : String → Nat → String) (r : Nat)
        (rest : List (String × Nat)) (mocksDone : List String)
        (acc : List (String × String)),
        generateHandlersLoop doc rh rt rm (("", r) :: rest) mocksDone acc =
          generateHandlersLoop doc rh rt rm rest mocksDone acc)
    ∧ (∀ (ops : List Operation) (n1 n2 id : String) (r1 r2 : Nat),
        opIDAt ⟨[(n1, ⟨some r1, none, none, none, none, none, none⟩),
                 (n2, ⟨some r2, none, none, none, none, none, none⟩)], ops⟩ r1
          = id →
        opIDAt ⟨[(n1, ⟨some r1, none, none, none, none, none, none⟩),
                 (n2, ⟨some r2, none, none, none, none, none, none⟩)], ops⟩ r2
          = id →
        id ≠ "" →
        mapGet (GetOperations
          ⟨[(n1, ⟨some r1, none, none, none, none, none, none⟩),
            (n2, ⟨some r2, none, none, none, none, none, none⟩)], ops⟩) id =
          some r2) := by
  refine ⟨?_, ?_, ?_⟩
  · intro doc
    unfold GetOperations
    exact getOpsFold_no_empty doc doc.paths [] rfl
  · intro doc rh rt rm r rest mocksDone acc
    conv_lhs => rw [generateHandlersLoop]
    rw [if_pos rfl]
  · intro ops n1 n2 id r1 r2 hid1 hid2 hne
    unfold GetOperations
    simp only [List.foldl_cons, List.foldl_nil]
    have hnone : ∀ m, addOp
        ⟨[(n1, ⟨some r1, none, none, none, none, none, none⟩),
          (n2, ⟨some r2, none, none, none, none, none, none⟩)], ops⟩ m none = m :=
      fun m => rfl
    simp only [hnone]
    show mapGet (addOp _ (addOp _ [] (some r1)) (some r2)) id = some r2
    unfold addOp
    dsimp only
    simp only [hid1, hid2]
    rw [if_pos hne, if_pos hne]
    exact mapGet_mapSet_self _ id r2

/-- Witness for C10 on concrete documents: no empty key in the operation
map, a skipped empty-id operation, and a later duplicate id winning. -/
theorem claim_C10_witness :
    mapGet (GetOperations exPetsDoc) "" = none
    ∧ generateHandlersLoop exPetsDoc (fun _ _ => "h") (fun _ _ => "t")
        (fun _ _ => "m") [("", 0)] [] [] =
      generateHandlersLoop exPetsDoc (fun _ _ => "h") (fun _ _ => "t")
        (fun _ _ => "m") [] [] []
    ∧ mapGet (GetOperations
        ⟨[("/a", ⟨some 0, none, none, none, none, none, none⟩),
          ("/b", ⟨some 1, none, none, none, none, none, none⟩)],
         [⟨"x", [], none⟩, ⟨"x", [], none⟩]⟩) "x" = some 1 :=
  ⟨claim_C10_emptyOperationID.1 exPetsDoc,
   claim_C10_emptyOperationID.2.1 exPetsDoc _ _ _ 0 [] [] [],
   claim_C10_emptyOperationID.2.2 [⟨"x", [], none⟩, ⟨"x", [], none⟩]
     "/a" "/b" "x" 0 1 rfl rfl (by decide)⟩

end GoApiGen
